import Mathlib

/-
Verification of the WebRTC signaling server (src/server.ts).

The server keeps three in-memory tables:
  swarms         : Map<string, Set<WebSocket>>   (infohash to member set)
  peerIdToSocket : Map<string, WebSocket>        (peerId to bound connection)
  socketSwarmMap : Map<WebSocket, Set<string>>   (connection to joined infohashes)

We embed JavaScript Map and Set as association lists and lists that keep
insertion order: Map.set replaces the value in place when the key exists and
appends the pair at the end otherwise; Map.delete removes the key; Set.add
appends the element at the end when absent; Set.delete removes it; forEach
iterates in insertion order.  Connections are modelled as natural numbers
(reference identity); readyState is an oracle Conn -> Bool supplied to the
message handler; the send calls are returned as an explicit list of
(recipient, message) pairs.  JSON field values are modelled by JVal so that
the truthiness and typeof checks of the validation code are exact.
-/

namespace SignalServer

abbrev Conn := Nat

/-- A JavaScript value as it can appear in a decoded JSON field. -/
inductive JVal where
  | jstr : String → JVal
  | jnum : Int → JVal
  | jbool : Bool → JVal
  | jnull : JVal
  | jundef : JVal
  | jobj : JVal
deriving DecidableEq

/-- JavaScript truthiness of a JVal (what `if (x)` tests). -/
def truthy : JVal → Bool
  | .jstr s => decide (s ≠ "")
  | .jnum n => decide (n ≠ 0)
  | .jbool b => b
  | .jnull => false
  | .jundef => false
  | .jobj => true

/-- JavaScript `typeof x === "string"`. -/
def isStr : JVal → Bool
  | .jstr _ => true
  | _ => false

/-- The string carried by a JVal; only read after isStr has been checked. -/
def jstrVal : JVal → String
  | .jstr s => s
  | _ => ""

/-- A decoded SignalingMessage: infohash, peerId, toPeerId as the raw JSON
values (absent field = jundef), plus the opaque signaling payload that is
forwarded verbatim. -/
structure Msg where
  infohash : JVal
  peerId : JVal
  toPeerId : JVal
  payload : JVal
deriving DecidableEq

/-- Lookup in an association list modelling a JS Map (first matching key). -/
def mlookup {α β : Type} [DecidableEq α] : List (α × β) → α → Option β
  | [], _ => none
  | (k, v) :: rest, a => if k = a then some v else mlookup rest a

/-- JS Map.set: replace in place if the key is present, append otherwise. -/
def mset {α β : Type} [DecidableEq α] : List (α × β) → α → β → List (α × β)
  | [], a, b => [(a, b)]
  | (k, v) :: rest, a, b =>
    if k = a then (k, b) :: rest else (k, v) :: mset rest a b

/-- JS Map.delete: drop every pair with the given key. -/
def mdelete {α β : Type} [DecidableEq α] (l : List (α × β)) (a : α) :
    List (α × β) :=
  l.filter (fun kv => decide (kv.1 ≠ a))

/-- JS Set.add: append at the end when absent. -/
def sadd {α : Type} [DecidableEq α] (l : List α) (x : α) : List α :=
  if x ∈ l then l else l ++ [x]

/-- JS Set.delete: remove the element. -/
def sdel {α : Type} [DecidableEq α] (l : List α) (x : α) : List α :=
  l.filter (fun y => decide (y ≠ x))

/-- The three registry tables of server.ts. -/
structure State where
  swarms : List (String × List Conn)
  peerIdToSocket : List (String × Conn)
  socketSwarmMap : List (Conn × List String)
deriving DecidableEq

/-- The empty registry, as at process start. -/
def init : State := ⟨[], [], []⟩

/-- wss.on connection: socketSwarmMap.set(ws, new Set()). -/
def onConnect (s : State) (c : Conn) : State :=
  { s with socketSwarmMap := mset s.socketSwarmMap c [] }

/-- The validation of server.ts lines 43-50: the message is dropped when
infohash or peerId is falsy or not a string. -/
def validMsg (m : Msg) : Bool :=
  truthy m.infohash && truthy m.peerId && isStr m.infohash && isStr m.peerId

/-- Validity of an inbound payload: none models a JSON.parse failure. -/
def rawValid : Option Msg → Bool
  | none => false
  | some m => validMsg m

/-- The routing test of line 67, `toPeerId && peerIdToSocket.has(toPeerId)`,
combined with the `get` of line 69: some target exactly when the unicast
branch is taken.  A falsy or non-string toPeerId never selects a target
(Map.has on a non-string key is false since all keys are validated strings). -/
def resolvedTarget (peer : List (String × Conn)) : JVal → Option Conn
  | .jstr t => if t = "" then none else mlookup peer t
  | _ => none

/-- ws.on message (server.ts lines 30-84).  Takes the readiness oracle, the
state, the sending connection and the decoded payload (none = parse error);
returns the new state and the list of performed send calls. -/
def onMessage (opn : Conn → Bool) (s : State) (c : Conn) (raw : Option Msg) :
    State × List (Conn × Msg) :=
  match raw with
  | none => (s, [])
  | some m =>
    if validMsg m then
      let infohash := jstrVal m.infohash
      let peerId := jstrVal m.peerId
      let peer' := mset s.peerIdToSocket peerId c
      let swarm' := sadd ((mlookup s.swarms infohash).getD []) c
      let swarms' := mset s.swarms infohash swarm'
      let ssm' := match mlookup s.socketSwarmMap c with
        | some hs => mset s.socketSwarmMap c (sadd hs infohash)
        | none => s.socketSwarmMap
      let sends := match resolvedTarget peer' m.toPeerId with
        | some target => if opn target then [(target, m)] else []
        | none =>
          (swarm'.filter (fun x => decide (x ≠ c) && opn x)).map
            (fun x => (x, m))
      (⟨swarms', peer', ssm'⟩, sends)
    else (s, [])

/-- One step of the swarm-cleanup loop of removeClient (lines 103-111). -/
def removeFromSwarm (c : Conn) (sw : List (String × List Conn))
    (infohash : String) : List (String × List Conn) :=
  match mlookup sw infohash with
  | some mem =>
    let mem' := sdel mem c
    if mem' = [] then mdelete sw infohash else mset sw infohash mem'
  | none => sw

/-- removeClient (server.ts lines 99-127): swarm cleanup driven by the
membership set, deletion of the membership set, then the scan of
peerIdToSocket that retains the LAST key in iteration order bound to this
socket and deletes that single key (if truthy). -/
def removeClient (s : State) (c : Conn) : State :=
  let sw' := match mlookup s.socketSwarmMap c with
    | some hs => hs.foldl (removeFromSwarm c) s.swarms
    | none => s.swarms
  let ssm' := mdelete s.socketSwarmMap c
  let peer' := match (s.peerIdToSocket.filter
      (fun kv => decide (kv.2 = c))).getLast? with
    | some (pid, _) =>
      if pid = "" then s.peerIdToSocket else mdelete s.peerIdToSocket pid
    | none => s.peerIdToSocket
  ⟨sw', peer', ssm'⟩

/-- A transport event delivered to the registry. -/
inductive Event where
  | connect : Conn → Event
  | message : Conn → Option Msg → Event
  | disconnect : Conn → Event
deriving DecidableEq

/-- The state transition of one event (sends discarded). -/
def step (opn : Conn → Bool) (s : State) : Event → State
  | .connect c => onConnect s c
  | .message c raw => (onMessage opn s c raw).1
  | .disconnect c => removeClient s c

/-- Run a sequence of events from a state. -/
def run (opn : Conn → Bool) (s : State) (es : List Event) : State :=
  es.foldl (step opn) s

/-- A connection currently known to the registry. -/
def tracked (s : State) (c : Conn) : Bool :=
  (mlookup s.socketSwarmMap c).isSome

/-- Events the transport can deliver in a given state: connection events
carry a fresh socket object, message events only fire between the connect
and the close of their socket (and, for C1, carry a valid payload);
close and error events can fire even after cleanup already ran. -/
def okEvent (s : State) : Event → Bool
  | .connect c => !tracked s c
  | .message c raw => tracked s c && rawValid raw
  | .disconnect _ => true

/-- A transport-realistic event trace from a given state. -/
def okSeq (opn : Conn → Bool) (s : State) : List Event → Bool
  | [] => true
  | e :: es => okEvent s e && okSeq opn (step opn s e) es

/-- The member set of the swarm for an infohash (empty if no swarm). -/
def membersOf (s : State) (h : String) : List Conn :=
  (mlookup s.swarms h).getD []

/-- The membership set of a connection (empty if untracked). -/
def joinedOf (s : State) (c : Conn) : List String :=
  (mlookup s.socketSwarmMap c).getD []

/-- Bidirectional consistency of the swarm table and the reverse index. -/
def bidirConsistent (s : State) : Prop :=
  ∀ h c, c ∈ membersOf s h ↔ h ∈ joinedOf s c

/-- No swarm with an empty member set is present in the swarm table. -/
def noEmptySwarm (s : State) : Prop :=
  ∀ h mem, mlookup s.swarms h = some mem → mem ≠ []

/-- The effect of one swarm-cleanup step on one stored member set. -/
def eraseVal (c : Conn) : Option (List Conn) → Option (List Conn)
  | none => none
  | some mem => if sdel mem c = [] then none else some (sdel mem c)

/-! ### Concrete fixtures used to instantiate the theorems -/

/-- Readiness oracle under which every connection is OPEN. -/
def opnAll : Conn → Bool := fun _ => true

/-- A valid broadcast message from peer a in swarm h1. -/
def msgA : Msg := ⟨.jstr "h1", .jstr "a", .jundef, .jnull⟩

/-- A valid broadcast message from peer b in swarm h1. -/
def msgB : Msg := ⟨.jstr "h1", .jstr "b", .jundef, .jnull⟩

/-- A valid message from peer a targeting peer b. -/
def msgToB : Msg := ⟨.jstr "h1", .jstr "a", .jstr "b", .jnull⟩

/-- A valid message from peer a targeting itself. -/
def msgSelf : Msg := ⟨.jstr "h1", .jstr "a", .jstr "a", .jnull⟩

/-- An invalid message: the infohash is the empty string. -/
def msgNoHash : Msg := ⟨.jstr "", .jstr "a", .jundef, .jnull⟩

/-- A registry in which peerId b is bound to connection 5 and no swarm
exists. -/
def stBound : State := ⟨[], [("b", 5)], []⟩

/-- A registry in which swarm h1 has members 1 and 2. -/
def stSwarm : State := ⟨[("h1", [1, 2])], [], []⟩

/-- A transport-realistic trace: two connections join h1 and the first
disconnects. -/
def traceC1 : List Event :=
  [.connect 0, .message 0 (some msgA), .connect 1, .message 1 (some msgB),
   .disconnect 0]

/-- A trace in which connection 0 claims peerId a and then peerId b. -/
def traceTwoIds : List Event :=
  [.connect 0, .message 0 (some msgA), .message 0 (some msgB)]

/-! ### Lemmas about the Map and Set embeddings -/

theorem mlookup_mset {α β : Type} [DecidableEq α] (l : List (α × β)) (k : α)
    (v : β) (a : α) :
    mlookup (mset l k v) a = if a = k then some v else mlookup l a := by
  induction l with
  | nil =>
    by_cases hak : a = k
    · subst hak
      simp [mset, mlookup]
    · have hka : ¬ k = a := fun h => hak h.symm
      simp [mset, mlookup, hak, hka]
  | cons kv rest ih =>
    obtain ⟨k', v'⟩ := kv
    by_cases hk : k' = k
    · subst hk
      by_cases hak : a = k'
      · subst hak
        simp [mset, mlookup]
      · have hka : ¬ k' = a := fun h => hak h.symm
        simp [mset, mlookup, hak, hka]
    · by_cases hka : k' = a
      · subst hka
        have hak : ¬ k' = k := hk
        simp [mset, mlookup, hk, hak]
      · simp [mset, mlookup, hk, hka, ih]

theorem mlookup_mset_self {α β : Type} [DecidableEq α] (l : List (α × β))
    (k : α) (v : β) : mlookup (mset l k v) k = some v := by
  simp [mlookup_mset]

theorem mlookup_mset_ne {α β : Type} [DecidableEq α] (l : List (α × β))
    (k : α) (v : β) (a : α) (hne : a ≠ k) :
    mlookup (mset l k v) a = mlookup l a := by
  simp [mlookup_mset, hne]

theorem mlookup_mdelete {α β : Type} [DecidableEq α] (l : List (α × β))
    (k : α) (a : α) :
    mlookup (mdelete l k) a = if a = k then none else mlookup l a := by
  induction l with
  | nil =>
    by_cases hak : a = k <;> simp [mdelete, mlookup, hak]
  | cons kv rest ih =>
    obtain ⟨k', v'⟩ := kv
    simp only [mdelete, List.filter_cons, ne_eq, decide_not] at ih ⊢
    by_cases hk : k' = k
    · subst hk
      by_cases hak : a = k'
      · subst hak
        simp [mlookup, ih]
      · have hka : ¬ k' = a := fun h => hak h.symm
        simp [mlookup, ih, hak, hka]
    · by_cases hka : k' = a
      · subst hka
        have hak : ¬ k' = k := hk
        simp [mlookup, ih, hk, hak]
      · simp [mlookup, ih, hk, hka]

theorem mlookup_mdelete_self {α β : Type} [DecidableEq α] (l : List (α × β))
    (k : α) : mlookup (mdelete l k) k = none := by
  simp [mlookup_mdelete]

theorem mlookup_mdelete_ne {α β : Type} [DecidableEq α] (l : List (α × β))
    (k : α) (a : α) (hne : a ≠ k) : mlookup (mdelete l k) a = mlookup l a := by
  simp [mlookup_mdelete, hne]

theorem mdelete_mdelete {α β : Type} [DecidableEq α] (l : List (α × β))
    (k : α) : mdelete (mdelete l k) k = mdelete l k := by
  simp [mdelete, List.filter_filter]

theorem mem_sadd {α : Type} [DecidableEq α] (l : List α) (x y : α) :
    y ∈ sadd l x ↔ y ∈ l ∨ y = x := by
  unfold sadd
  by_cases hx : x ∈ l
  · rw [if_pos hx]
    constructor
    · exact Or.inl
    · rintro (h | rfl)
      · exact h
      · exact hx
  · rw [if_neg hx]
    simp

theorem sadd_ne_nil {α : Type} [DecidableEq α] (l : List α) (x : α) :
    sadd l x ≠ [] := by
  unfold sadd
  by_cases hx : x ∈ l
  · rw [if_pos hx]
    rintro rfl
    exact absurd hx (List.not_mem_nil x)
  · rw [if_neg hx]
    simp

theorem mem_sdel {α : Type} [DecidableEq α] (l : List α) (x y : α) :
    y ∈ sdel l x ↔ y ∈ l ∧ y ≠ x := by
  simp [sdel, List.mem_filter]

theorem sdel_sdel {α : Type} [DecidableEq α] (l : List α) (x : α) :
    sdel (sdel l x) x = sdel l x := by
  simp [sdel, List.filter_filter]

/-! ### Characterizations of the three operations -/

theorem eraseVal_idem (c : Conn) (o : Option (List Conn)) :
    eraseVal c (eraseVal c o) = eraseVal c o := by
  cases o with
  | none => rfl
  | some mem =>
    simp only [eraseVal]
    by_cases h : sdel mem c = []
    · simp [h, eraseVal]
    · simp [h, eraseVal, sdel_sdel]

theorem mlookup_removeFromSwarm (c : Conn) (sw : List (String × List Conn))
    (ih0 h : String) :
    mlookup (removeFromSwarm c sw ih0) h =
      if h = ih0 then eraseVal c (mlookup sw ih0) else mlookup sw h := by
  cases hl : mlookup sw ih0 with
  | none =>
    simp only [removeFromSwarm, hl, eraseVal]
    by_cases hh : h = ih0
    · subst hh
      simp [hl]
    · simp [hh]
  | some mem =>
    simp only [removeFromSwarm, hl, eraseVal]
    by_cases he : sdel mem c = []
    · simp only [if_pos he]
      by_cases hh : h = ih0
      · subst hh
        simp [mlookup_mdelete_self]
      · simp [mlookup_mdelete_ne _ _ _ hh, hh]
    · simp only [if_neg he]
      by_cases hh : h = ih0
      · subst hh
        simp [mlookup_mset_self]
      · simp [mlookup_mset_ne _ _ _ _ hh, hh]

theorem mlookup_foldl_removeFromSwarm (c : Conn) (hs : List String)
    (sw : List (String × List Conn)) (h : String) :
    mlookup (hs.foldl (removeFromSwarm c) sw) h =
      if h ∈ hs then eraseVal c (mlookup sw h) else mlookup sw h := by
  induction hs generalizing sw with
  | nil => simp
  | cons ih0 rest ih =>
    simp only [List.foldl_cons]
    rw [ih]
    by_cases hmem : h ∈ rest
    · rw [if_pos hmem, if_pos (by simp [hmem])]
      rw [mlookup_removeFromSwarm]
      by_cases hh : h = ih0
      · subst hh
        rw [if_pos rfl, eraseVal_idem]
      · rw [if_neg hh]
    · rw [if_neg hmem, mlookup_removeFromSwarm]
      by_cases hh : h = ih0
      · subst hh
        rw [if_pos rfl, if_pos (by simp)]
      · rw [if_neg hh, if_neg (by simp [hh, hmem])]

theorem swarms_removeClient (s : State) (c : Conn) (h : String) :
    mlookup (removeClient s c).swarms h =
      if h ∈ joinedOf s c then eraseVal c (mlookup s.swarms h)
      else mlookup s.swarms h := by
  cases hl : mlookup s.socketSwarmMap c with
  | none => simp [removeClient, hl, joinedOf]
  | some hs => simp [removeClient, hl, joinedOf, mlookup_foldl_removeFromSwarm]

theorem membersOf_removeClient (s : State) (c : Conn) (h : String) :
    membersOf (removeClient s c) h =
      if h ∈ joinedOf s c then sdel (membersOf s h) c else membersOf s h := by
  unfold membersOf
  rw [swarms_removeClient]
  by_cases hmem : h ∈ joinedOf s c
  · rw [if_pos hmem, if_pos hmem]
    cases ho : mlookup s.swarms h with
    | none => simp [eraseVal, sdel]
    | some mem =>
      simp only [eraseVal]
      by_cases he : sdel mem c = [] <;> simp [he]
  · rw [if_neg hmem, if_neg hmem]

theorem socketSwarmMap_removeClient (s : State) (c : Conn) :
    (removeClient s c).socketSwarmMap = mdelete s.socketSwarmMap c := rfl

theorem joinedOf_removeClient_self (s : State) (c : Conn) :
    joinedOf (removeClient s c) c = [] := by
  unfold joinedOf
  rw [socketSwarmMap_removeClient, mlookup_mdelete_self]
  rfl

theorem joinedOf_removeClient_ne (s : State) (c c' : Conn) (h : c' ≠ c) :
    joinedOf (removeClient s c) c' = joinedOf s c' := by
  unfold joinedOf
  rw [socketSwarmMap_removeClient, mlookup_mdelete_ne _ _ _ h]

theorem swarms_onConnect (s : State) (c : Conn) :
    (onConnect s c).swarms = s.swarms := rfl

theorem joinedOf_onConnect_self (s : State) (c : Conn) :
    joinedOf (onConnect s c) c = [] := by
  simp [joinedOf, onConnect, mlookup_mset_self]

theorem joinedOf_onConnect_ne (s : State) (c c' : Conn) (h : c' ≠ c) :
    joinedOf (onConnect s c) c' = joinedOf s c' := by
  simp [joinedOf, onConnect, mlookup_mset_ne _ _ _ _ h]

theorem onMessage_valid_fst (opn : Conn → Bool) (s : State) (c : Conn)
    (m : Msg) (hv : validMsg m = true) :
    (onMessage opn s c (some m)).1 =
      ⟨mset s.swarms (jstrVal m.infohash)
         (sadd ((mlookup s.swarms (jstrVal m.infohash)).getD []) c),
       mset s.peerIdToSocket (jstrVal m.peerId) c,
       match mlookup s.socketSwarmMap c with
       | some hs => mset s.socketSwarmMap c (sadd hs (jstrVal m.infohash))
       | none => s.socketSwarmMap⟩ := by
  simp [onMessage, hv]

theorem membersOf_onMessage (opn : Conn → Bool) (s : State) (c : Conn)
    (m : Msg) (hv : validMsg m = true) (h : String) :
    membersOf ((onMessage opn s c (some m)).1) h =
      if h = jstrVal m.infohash then sadd (membersOf s (jstrVal m.infohash)) c
      else membersOf s h := by
  rw [onMessage_valid_fst _ _ _ _ hv]
  unfold membersOf
  by_cases hh : h = jstrVal m.infohash
  · subst hh
    simp [mlookup_mset_self]
  · simp [mlookup_mset_ne _ _ _ _ hh, hh]

theorem joinedOf_onMessage_tracked (opn : Conn → Bool) (s : State) (c : Conn)
    (m : Msg) (hv : validMsg m = true) (ht : tracked s c = true) (c' : Conn) :
    joinedOf ((onMessage opn s c (some m)).1) c' =
      if c' = c then sadd (joinedOf s c) (jstrVal m.infohash)
      else joinedOf s c' := by
  rw [onMessage_valid_fst _ _ _ _ hv]
  unfold tracked at ht
  cases hl : mlookup s.socketSwarmMap c with
  | none =>
    rw [hl] at ht
    simp at ht
  | some hs =>
    unfold joinedOf
    simp only [hl]
    by_cases hc : c' = c
    · subst hc
      simp [mlookup_mset_self, joinedOf, hl]
    · simp [mlookup_mset_ne _ _ _ _ hc, hc, joinedOf]

/-! ### Preservation of the two table invariants -/

theorem joinedOf_of_untracked (s : State) (c : Conn)
    (h : tracked s c = false) : joinedOf s c = [] := by
  unfold tracked at h
  unfold joinedOf
  cases hl : mlookup s.socketSwarmMap c with
  | none => rfl
  | some hs =>
    rw [hl] at h
    simp at h

theorem membersOf_onConnect (s : State) (c : Conn) (h : String) :
    membersOf (onConnect s c) h = membersOf s h := rfl

theorem bidir_onConnect (s : State) (c : Conn) (hinv : bidirConsistent s)
    (hf : tracked s c = false) : bidirConsistent (onConnect s c) := by
  intro h c'
  rw [membersOf_onConnect]
  by_cases hc : c' = c
  · subst hc
    rw [joinedOf_onConnect_self, ← joinedOf_of_untracked s c' hf]
    exact hinv h c'
  · rw [joinedOf_onConnect_ne _ _ _ hc]
    exact hinv h c'

theorem onMessage_invalid (opn : Conn → Bool) (s : State) (c : Conn)
    (raw : Option Msg) (h : rawValid raw = false) :
    onMessage opn s c raw = (s, []) := by
  cases raw with
  | none => rfl
  | some m =>
    simp only [rawValid] at h
    simp [onMessage, h]

theorem bidir_onMessage (opn : Conn → Bool) (s : State) (c : Conn)
    (raw : Option Msg) (hinv : bidirConsistent s) (ht : tracked s c = true) :
    bidirConsistent ((onMessage opn s c raw).1) := by
  cases raw with
  | none => exact hinv
  | some m =>
    by_cases hv : validMsg m = true
    · intro h c'
      rw [membersOf_onMessage _ _ _ _ hv,
        joinedOf_onMessage_tracked _ _ _ _ hv ht]
      by_cases hc : c' = c
      · subst hc
        rw [if_pos rfl]
        by_cases hh : h = jstrVal m.infohash
        · subst hh
          rw [if_pos rfl]
          simp [mem_sadd]
        · rw [if_neg hh, mem_sadd]
          constructor
          · intro hmem
            exact Or.inl ((hinv h c').1 hmem)
          · rintro (hj | hj)
            · exact (hinv h c').2 hj
            · exact absurd hj hh
      · rw [if_neg hc]
        by_cases hh : h = jstrVal m.infohash
        · subst hh
          rw [if_pos rfl, mem_sadd]
          constructor
          · rintro (hmem | hmem)
            · exact (hinv _ c').1 hmem
            · exact absurd hmem hc
          · intro hj
            exact Or.inl ((hinv _ c').2 hj)
        · rw [if_neg hh]
          exact hinv h c'
    · rw [Bool.not_eq_true] at hv
      have he : onMessage opn s c (some m) = (s, []) := by
        simp [onMessage, hv]
      rw [he]
      exact hinv

theorem bidir_removeClient (s : State) (c : Conn)
    (hinv : bidirConsistent s) : bidirConsistent (removeClient s c) := by
  intro h c'
  rw [membersOf_removeClient]
  by_cases hc : c' = c
  · subst hc
    rw [joinedOf_removeClient_self]
    by_cases hmem : h ∈ joinedOf s c'
    · rw [if_pos hmem]
      simp [mem_sdel]
    · rw [if_neg hmem]
      simp only [List.not_mem_nil, iff_false]
      intro hcm
      exact hmem ((hinv h c').1 hcm)
  · rw [joinedOf_removeClient_ne _ _ _ hc]
    by_cases hmem : h ∈ joinedOf s c
    · rw [if_pos hmem, mem_sdel]
      constructor
      · rintro ⟨h1, _⟩
        exact (hinv h c').1 h1
      · intro h1
        exact ⟨(hinv h c').2 h1, hc⟩
    · rw [if_neg hmem]
      exact hinv h c'

theorem bidir_step (opn : Conn → Bool) (s : State) (e : Event)
    (hinv : bidirConsistent s) (hok : okEvent s e = true) :
    bidirConsistent (step opn s e) := by
  cases e with
  | connect c =>
    simp only [okEvent, Bool.not_eq_true'] at hok
    exact bidir_onConnect s c hinv hok
  | message c raw =>
    simp only [okEvent, Bool.and_eq_true] at hok
    exact bidir_onMessage opn s c raw hinv hok.1
  | disconnect c => exact bidir_removeClient s c hinv

theorem bidir_run (opn : Conn → Bool) (es : List Event) (s : State)
    (hinv : bidirConsistent s) (hok : okSeq opn s es = true) :
    bidirConsistent (run opn s es) := by
  induction es generalizing s with
  | nil => exact hinv
  | cons e rest ih =>
    simp only [okSeq, Bool.and_eq_true] at hok
    exact ih (step opn s e) (bidir_step opn s e hinv hok.1) hok.2

theorem bidir_init : bidirConsistent init := by
  intro h c
  simp [membersOf, joinedOf, init, mlookup]

theorem nes_onConnect (s : State) (c : Conn) (hn : noEmptySwarm s) :
    noEmptySwarm (onConnect s c) := hn

theorem nes_onMessage (opn : Conn → Bool) (s : State) (c : Conn)
    (raw : Option Msg) (hn : noEmptySwarm s) :
    noEmptySwarm ((onMessage opn s c raw).1) := by
  cases raw with
  | none => exact hn
  | some m =>
    by_cases hv : validMsg m = true
    · intro h mem hl
      simp only [onMessage_valid_fst _ _ _ _ hv] at hl
      rw [mlookup_mset] at hl
      by_cases hh : h = jstrVal m.infohash
      · rw [if_pos hh] at hl
        have := Option.some.inj hl
        subst this
        exact sadd_ne_nil _ _
      · rw [if_neg hh] at hl
        exact hn h mem hl
    · rw [Bool.not_eq_true] at hv
      have he : onMessage opn s c (some m) = (s, []) := by
        simp [onMessage, hv]
      rw [he]
      exact hn

theorem nes_removeClient (s : State) (c : Conn) (hn : noEmptySwarm s) :
    noEmptySwarm (removeClient s c) := by
  intro h mem hl
  rw [swarms_removeClient] at hl
  by_cases hmem : h ∈ joinedOf s c
  · rw [if_pos hmem] at hl
    cases ho : mlookup s.swarms h with
    | none =>
      rw [ho] at hl
      simp [eraseVal] at hl
    | some mem0 =>
      rw [ho] at hl
      simp only [eraseVal] at hl
      by_cases he : sdel mem0 c = []
      · rw [if_pos he] at hl
        exact absurd hl (by simp)
      · rw [if_neg he] at hl
        have := Option.some.inj hl
        subst this
        exact he
  · rw [if_neg hmem] at hl
    exact hn h mem hl

theorem nes_step (opn : Conn → Bool) (s : State) (e : Event)
    (hn : noEmptySwarm s) : noEmptySwarm (step opn s e) := by
  cases e with
  | connect c => exact nes_onConnect s c hn
  | message c raw => exact nes_onMessage opn s c raw hn
  | disconnect c => exact nes_removeClient s c hn

theorem nes_run (opn : Conn → Bool) (es : List Event) (s : State)
    (hn : noEmptySwarm s) : noEmptySwarm (run opn s es) := by
  induction es generalizing s with
  | nil => exact hn
  | cons e rest ih => exact ih (step opn s e) (nes_step opn s e hn)

theorem nes_init : noEmptySwarm init := by
  intro h mem hl
  simp [init, mlookup] at hl

theorem onMessage_valid_snd (opn : Conn → Bool) (s : State) (c : Conn)
    (m : Msg) (hv : validMsg m = true) :
    (onMessage opn s c (some m)).2 =
      match resolvedTarget (mset s.peerIdToSocket (jstrVal m.peerId) c)
          m.toPeerId with
      | some target => if opn target then [(target, m)] else []
      | none =>
        ((sadd ((mlookup s.swarms (jstrVal m.infohash)).getD []) c).filter
          (fun x => decide (x ≠ c) && opn x)).map (fun x => (x, m)) := by
  simp [onMessage, hv]

/-! ### The claims -/

/-- Claim C1: for every transport-realistic sequence of onConnect,
onMessage (valid message) and onDisconnect events, after each event a
connection is a member of the swarm set for infohash h if and only if h is
in the membership set of that connection (bidirectional consistency of the
swarm table and the per-connection reverse index). -/
theorem C1_swarm_membership_bidirectional (opn : Conn → Bool)
    (es : List Event) (hok : okSeq opn init es = true) :
    bidirConsistent (run opn init es) :=
  bidir_run opn es init bidir_init hok

/-- Witness for C1 at a concrete five-event trace. -/
theorem C1_swarm_membership_bidirectional_witness :
    okSeq opnAll init traceC1 = true ∧ bidirConsistent (run opnAll init traceC1) :=
  ⟨by decide, C1_swarm_membership_bidirectional opnAll traceC1 (by decide)⟩

/-- Claim C3: a valid message whose toPeerId resolves in the peer-binding
table (as it stands after the sender-binding write of line 53) is sent to
the bound connection alone when that connection is OPEN, and to nobody at
all otherwise; the swarm is never used. -/
theorem C3_unicast_only_to_bound_connection (opn : Conn → Bool) (s : State)
    (c t : Conn) (m : Msg) (hv : validMsg m = true)
    (hb : resolvedTarget (mset s.peerIdToSocket (jstrVal m.peerId) c)
        m.toPeerId = some t) :
    (onMessage opn s c (some m)).2 = if opn t then [(t, m)] else [] := by
  rw [onMessage_valid_snd _ _ _ _ hv, hb]

/-- Witness for C3: peerId b is bound to the closed connection 5, so the
message from connection 0 is dropped entirely. -/
theorem C3_unicast_only_to_bound_connection_witness :
    validMsg msgToB = true ∧
      resolvedTarget (mset stBound.peerIdToSocket (jstrVal msgToB.peerId) 0)
        msgToB.toPeerId = some 5 ∧
      (onMessage (fun _ => false) stBound 0 (some msgToB)).2 = [] :=
  ⟨by decide, by decide,
    C3_unicast_only_to_bound_connection (fun _ => false) stBound 0 5 msgToB
      (by decide) (by decide)⟩

/-- Claim C4: a valid message whose toPeerId does not resolve in the
peer-binding table is forwarded exactly to the OPEN members of the swarm of
its infohash (the member set as it stands after the sender joined) other
than the sender, each receiving the message itself. -/
theorem C4_broadcast_to_open_others (opn : Conn → Bool) (s : State)
    (c : Conn) (m : Msg) (hv : validMsg m = true)
    (hb : resolvedTarget (mset s.peerIdToSocket (jstrVal m.peerId) c)
        m.toPeerId = none) :
    (∀ x : Conn, (x, m) ∈ (onMessage opn s c (some m)).2 ↔
      (x ∈ sadd (membersOf s (jstrVal m.infohash)) c ∧ x ≠ c ∧
        opn x = true)) ∧
    (∀ p ∈ (onMessage opn s c (some m)).2, p.2 = m) := by
  rw [onMessage_valid_snd _ _ _ _ hv, hb]
  constructor
  · intro x
    simp only [List.mem_map, List.mem_filter, membersOf,
      Bool.and_eq_true, decide_eq_true_eq, Prod.mk.injEq]
    constructor
    · rintro ⟨a, ⟨hmem, hne, hop⟩, rfl, -⟩
      exact ⟨hmem, hne, hop⟩
    · rintro ⟨hmem, hne, hop⟩
      exact ⟨x, ⟨hmem, hne, hop⟩, rfl, trivial⟩
  · intro p hp
    simp only [List.mem_map] at hp
    obtain ⟨a, _, rfl⟩ := hp
    rfl

/-- Witness for C4: connection 0 broadcasts into swarm h1 = \x7b1, 2\x7d;
member 1 is a recipient. -/
theorem C4_broadcast_to_open_others_witness :
    validMsg msgA = true ∧
      resolvedTarget (mset stSwarm.peerIdToSocket (jstrVal msgA.peerId) 0)
        msgA.toPeerId = none ∧
      ((1, msgA) ∈ (onMessage opnAll stSwarm 0 (some msgA)).2 ↔
        (1 ∈ sadd (membersOf stSwarm (jstrVal msgA.infohash)) 0 ∧
          (1 : Conn) ≠ 0 ∧ opnAll 1 = true)) :=
  ⟨by decide, by decide,
    (C4_broadcast_to_open_others opnAll stSwarm 0 msgA (by decide)
      (by decide)).1 1⟩

/-- Claim C5: an inbound payload that fails JSON decoding or whose decoded
value lacks a non-empty infohash string or a non-empty peerId string leaves
the whole registry state unchanged and produces no sends. -/
theorem C5_invalid_message_no_effect (opn : Conn → Bool) (s : State)
    (c : Conn) (raw : Option Msg) (h : rawValid raw = false) :
    onMessage opn s c raw = (s, []) :=
  onMessage_invalid opn s c raw h

/-- Witness for C5 at a message whose infohash is the empty string. -/
theorem C5_invalid_message_no_effect_witness :
    rawValid (some msgNoHash) = false ∧
      onMessage opnAll stSwarm 0 (some msgNoHash) = (stSwarm, []) :=
  ⟨by decide,
    C5_invalid_message_no_effect opnAll stSwarm 0 (some msgNoHash) (by decide)⟩

/-- Claim C6: after any sequence of operations (hence after any single
operation on a reachable state) the swarm table holds no swarm whose member
set is empty. -/
theorem C6_no_empty_swarm_persists (opn : Conn → Bool) (es : List Event) :
    noEmptySwarm (run opn init es) :=
  nes_run opn es init nes_init

/-- Claim C7: a valid message always leaves the peer-binding entry of the
sender peerId pointing at the sending connection, whatever previous
binding existed and whether the message is then unicast or broadcast. -/
theorem C7_sender_binding_overwritten (opn : Conn → Bool) (s : State)
    (c : Conn) (m : Msg) (hv : validMsg m = true) :
    mlookup ((onMessage opn s c (some m)).1).peerIdToSocket
      (jstrVal m.peerId) = some c := by
  simp only [onMessage_valid_fst _ _ _ _ hv]
  exact mlookup_mset_self _ _ _

/-- Witness for C7: peerId b was bound to connection 5 and is repointed to
the sending connection 0. -/
theorem C7_sender_binding_overwritten_witness :
    validMsg msgB = true ∧
      mlookup ((onMessage opnAll stBound 0 (some msgB)).1).peerIdToSocket
        (jstrVal msgB.peerId) = some 0 :=
  ⟨by decide, C7_sender_binding_overwritten opnAll stBound 0 msgB (by decide)⟩

/-- Claim C9: a valid message whose toPeerId equals the sender peerId is
unicast back to the (open) sending connection itself, because the binding
of line 53 is written before the routing decision of line 67 reads it. -/
theorem C9_self_targeted_message_echoes (opn : Conn → Bool) (s : State)
    (c : Conn) (m : Msg) (hv : validMsg m = true)
    (hself : m.toPeerId = m.peerId) (hopen : opn c = true) :
    (onMessage opn s c (some m)).2 = [(c, m)] := by
  have hv0 := hv
  simp only [validMsg, Bool.and_eq_true] at hv0
  obtain ⟨⟨⟨htr, htp⟩, hsi⟩, hsp⟩ := hv0
  obtain ⟨p, hp⟩ : ∃ p, m.peerId = .jstr p := by
    cases hmp : m.peerId <;> rw [hmp] at hsp <;>
      simp [isStr] at hsp ⊢
  have hne : p ≠ "" := by
    rw [hp] at htp
    simpa [truthy] using htp
  rw [onMessage_valid_snd _ _ _ _ hv, hself, hp]
  simp [resolvedTarget, jstrVal, hne, mlookup_mset_self, hopen]

/-- Witness for C9: connection 0 sends a message targeting its own peerId
and receives it back. -/
theorem C9_self_targeted_message_echoes_witness :
    validMsg msgSelf = true ∧ msgSelf.toPeerId = msgSelf.peerId ∧
      opnAll 0 = true ∧
      (onMessage opnAll init 0 (some msgSelf)).2 = [(0, msgSelf)] :=
  ⟨by decide, by decide, by decide,
    C9_self_targeted_message_echoes opnAll init 0 msgSelf (by decide)
      (by decide) (by decide)⟩

/-- Claim C10: unicast delivery reads only the peer-binding table: a valid
message with a bound, open target is delivered to the bound connection even
when that connection is not a member of the swarm of the message infohash. -/
theorem C10_unicast_independent_of_swarm (opn : Conn → Bool) (s : State)
    (c t : Conn) (m : Msg) (hv : validMsg m = true)
    (hb : resolvedTarget (mset s.peerIdToSocket (jstrVal m.peerId) c)
        m.toPeerId = some t)
    (hopen : opn t = true)
    (_hnm : t ∉ membersOf s (jstrVal m.infohash)) :
    (onMessage opn s c (some m)).2 = [(t, m)] := by
  rw [onMessage_valid_snd _ _ _ _ hv, hb]
  simp [hopen]

theorem state_eq_of_parts : ∀ s t : State, s.swarms = t.swarms →
    s.peerIdToSocket = t.peerIdToSocket →
    s.socketSwarmMap = t.socketSwarmMap → s = t
  | ⟨_, _, _⟩, ⟨_, _, _⟩, h1, h2, h3 => by
    cases h1
    cases h2
    cases h3
    rfl

theorem getLast?_mem {α : Type} :
    ∀ (l : List α) (a : α), l.getLast? = some a → a ∈ l
  | [], a, h => by simp at h
  | [x], a, h => by
    rw [List.getLast?_singleton] at h
    obtain rfl := Option.some.inj h
    exact List.mem_singleton_self x
  | x :: y :: rest, a, h => by
    rw [List.getLast?_cons_cons] at h
    exact List.mem_cons_of_mem x (getLast?_mem (y :: rest) a h)

theorem peerIdToSocket_removeClient (s : State) (c : Conn) :
    (removeClient s c).peerIdToSocket =
      match (s.peerIdToSocket.filter (fun kv => decide (kv.2 = c))).getLast?
          with
      | some (pid, _) =>
        if pid = "" then s.peerIdToSocket else mdelete s.peerIdToSocket pid
      | none => s.peerIdToSocket := rfl

theorem swarms_removeClient_untracked (s : State) (c : Conn)
    (h : mlookup s.socketSwarmMap c = none) :
    (removeClient s c).swarms = s.swarms := by
  simp [removeClient, h]

/-- The one peer-binding entry removeClient has scanned out satisfies the
scan predicate: its bound connection is c. -/
theorem getLast?_filter_bound (l : List (String × Conn)) (c : Conn)
    (q : String) (v : Conn)
    (h : (l.filter (fun kv => decide (kv.2 = c))).getLast? = some (q, v)) :
    v = c := by
  have hmem := getLast?_mem _ _ h
  have := List.of_mem_filter hmem
  simpa using this

/-- When at most one entry is bound to c, the scan result is the whole
filtered list. -/
theorem filter_eq_single_of_getLast? (l : List (String × Conn)) (c : Conn)
    (q : String)
    (hlen : (l.filter (fun kv => decide (kv.2 = c))).length ≤ 1)
    (h : (l.filter (fun kv => decide (kv.2 = c))).getLast? = some (q, c)) :
    l.filter (fun kv => decide (kv.2 = c)) = [(q, c)] := by
  rcases hf : l.filter (fun kv => decide (kv.2 = c)) with _ | ⟨x, _ | ⟨y, rest⟩⟩
  · rw [hf, List.getLast?_nil] at h
    exact absurd h (by simp)
  · rw [hf, List.getLast?_singleton] at h
    rw [hf, Option.some.inj h]
  · rw [hf] at hlen
    simp at hlen

/-- Witness for C10: connection 5 is bound to peerId b but belongs to no
swarm, and still receives the message. -/
theorem C10_unicast_independent_of_swarm_witness :
    validMsg msgToB = true ∧
      resolvedTarget (mset stBound.peerIdToSocket (jstrVal msgToB.peerId) 0)
        msgToB.toPeerId = some 5 ∧
      opnAll 5 = true ∧ 5 ∉ membersOf stBound (jstrVal msgToB.infohash) ∧
      (onMessage opnAll stBound 0 (some msgToB)).2 = [(5, msgToB)] :=
  ⟨by decide, by decide, by decide, by decide,
    C10_unicast_independent_of_swarm opnAll stBound 0 5 msgToB (by decide)
      (by decide) (by decide) (by decide)⟩

/-- Counterexample to C2 as stated: connection 0 claimed peerId a and then
peerId b (trace traceTwoIds), so both bindings point at connection 0; after
removeClient 0 the binding of a still points at connection 0 — NOT every
entry bound to the disconnecting connection is removed. -/
theorem C2_counterexample_stale_binding_survives :
    mlookup (run opnAll init traceTwoIds).peerIdToSocket "a" = some 0 ∧
      mlookup (removeClient (run opnAll init traceTwoIds) 0).peerIdToSocket
        "a" = some 0 :=
  ⟨by decide, by decide⟩

/-- Claim C2 amended: when onDisconnect runs for a connection c, exactly
one key of the peer-binding table is removed, namely the key of the
last entry in insertion order whose bound connection is c (when such an
entry exists and its key is non-empty); the lookup of every other key,
in particular of any peerId repointed to a different (newer) connection,
is unchanged — but further stale bindings of c survive. -/
theorem C2_amended_disconnect_removes_last_binding (s : State) (c : Conn)
    (p : String) :
    mlookup (removeClient s c).peerIdToSocket p =
      if (s.peerIdToSocket.filter (fun kv => decide (kv.2 = c))).getLast?
          = some (p, c) ∧ p ≠ "" then none
      else mlookup s.peerIdToSocket p := by
  rw [peerIdToSocket_removeClient]
  cases hfil : (s.peerIdToSocket.filter (fun kv => decide (kv.2 = c))).getLast?
      with
  | none => rw [if_neg (by simp)]
  | some qv =>
    obtain ⟨q, v⟩ := qv
    have hvc : v = c := getLast?_filter_bound s.peerIdToSocket c q v hfil
    rw [hvc]
    dsimp only
    by_cases hq : q = ""
    · rw [if_pos hq]
      have hcond : ¬((some (q, c) = some (p, c)) ∧ p ≠ "") := by
        rintro ⟨h1, h2⟩
        have hqp : q = p := congrArg Prod.fst (Option.some.inj h1)
        exact h2 (hqp ▸ hq)
      rw [if_neg hcond]
    · rw [if_neg hq]
      by_cases hpq : p = q
      · subst hpq
        rw [if_pos ⟨rfl, hq⟩, mlookup_mdelete_self]
      · have hcond : ¬((some (q, c) = some (p, c)) ∧ p ≠ "") := by
          rintro ⟨h1, -⟩
          exact hpq (congrArg Prod.fst (Option.some.inj h1)).symm
        rw [if_neg hcond, mlookup_mdelete_ne _ _ _ hpq]

/-- Counterexample to C8 as stated: after the trace traceTwoIds the first
removeClient 0 removes only the binding of b, so the second invocation
removes the remaining stale binding of a — it is not a no-op. -/
theorem C8_counterexample_second_disconnect_differs :
    removeClient (removeClient (run opnAll init traceTwoIds) 0) 0 ≠
      removeClient (run opnAll init traceTwoIds) 0 := by
  decide

/-- Claim C8 amended: invoking onDisconnect a second time leaves the swarm
table and the membership table unchanged, and when at most one entry of the
peer-binding table is bound to the connection at the time of the first
invocation the second invocation is a complete no-op (in general it may
remove one further stale binding of that connection). -/
theorem C8_amended_second_disconnect (s : State) (c : Conn) :
    (removeClient (removeClient s c) c).swarms = (removeClient s c).swarms ∧
    (removeClient (removeClient s c) c).socketSwarmMap =
      (removeClient s c).socketSwarmMap ∧
    ((s.peerIdToSocket.filter (fun kv => decide (kv.2 = c))).length ≤ 1 →
      removeClient (removeClient s c) c = removeClient s c) := by
  have hssm : mlookup (removeClient s c).socketSwarmMap c = none := by
    rw [socketSwarmMap_removeClient, mlookup_mdelete_self]
  have h1 : (removeClient (removeClient s c) c).swarms =
      (removeClient s c).swarms :=
    swarms_removeClient_untracked (removeClient s c) c hssm
  have h2 : (removeClient (removeClient s c) c).socketSwarmMap =
      (removeClient s c).socketSwarmMap := by
    rw [socketSwarmMap_removeClient, socketSwarmMap_removeClient,
      mdelete_mdelete]
  refine ⟨h1, h2, fun hlen => ?_⟩
  refine state_eq_of_parts _ _ h1 ?_ h2
  cases hfil : (s.peerIdToSocket.filter (fun kv => decide (kv.2 = c))).getLast?
      with
  | none =>
    have hp1 : (removeClient s c).peerIdToSocket = s.peerIdToSocket := by
      rw [peerIdToSocket_removeClient, hfil]
    rw [peerIdToSocket_removeClient (removeClient s c) c, hp1, hfil]
  | some qv =>
    obtain ⟨q, v⟩ := qv
    have hvc : v = c := getLast?_filter_bound s.peerIdToSocket c q v hfil
    rw [hvc] at hfil
    by_cases hq : q = ""
    · have hp1 : (removeClient s c).peerIdToSocket = s.peerIdToSocket := by
        rw [peerIdToSocket_removeClient, hfil]
        dsimp only
        exact if_pos hq
      rw [peerIdToSocket_removeClient (removeClient s c) c, hp1, hfil]
      dsimp only
      exact if_pos hq
    · have hp1 : (removeClient s c).peerIdToSocket =
          mdelete s.peerIdToSocket q := by
        rw [peerIdToSocket_removeClient, hfil]
        dsimp only
        exact if_neg hq
      have hone : s.peerIdToSocket.filter (fun kv => decide (kv.2 = c)) =
          [(q, c)] :=
        filter_eq_single_of_getLast? s.peerIdToSocket c q hlen hfil
      have hnil : (mdelete s.peerIdToSocket q).filter
          (fun kv => decide (kv.2 = c)) = [] := by
        rw [List.filter_eq_nil_iff]
        intro kv hkv
        simp only [decide_eq_true_eq]
        intro hc2
        simp only [mdelete] at hkv
        have hinl : kv ∈ s.peerIdToSocket := List.mem_of_mem_filter hkv
        have hk1 := List.of_mem_filter hkv
        simp only [decide_eq_true_eq] at hk1
        have hinfil : kv ∈ s.peerIdToSocket.filter
            (fun kv => decide (kv.2 = c)) := by
          rw [List.mem_filter]
          exact ⟨hinl, by simpa using hc2⟩
        rw [hone, List.mem_singleton] at hinfil
        rw [hinfil] at hk1
        simp at hk1
      rw [peerIdToSocket_removeClient (removeClient s c) c, hp1, hnil,
        List.getLast?_nil]

/-- Witness for the implication part of the amended C8: connection 5 owns
the single binding of peerId b, and the second disconnect is a no-op. -/
theorem C8_amended_second_disconnect_witness :
    (stBound.peerIdToSocket.filter (fun kv => decide (kv.2 = 5))).length ≤ 1 ∧
      removeClient (removeClient stBound 5) 5 = removeClient stBound 5 :=
  ⟨by decide, (C8_amended_second_disconnect stBound 5).2.2 (by decide)⟩

end SignalServer
